import Mathlib

/-!
# Verification of the subtitle-loop core: transcript timestamp/query functions
# and the `LoopController` state machine.

JavaScript strings are modelled as `List Char`; JavaScript numbers that hold
playback times are modelled as `ℚ` (exact ordered-field arithmetic; the code
only compares, takes `min`/`max`, floors and does integer arithmetic on them).
Console logging (`console.log` / `console.warn` / `console.error`) is pure
output with no effect on program state and is not modelled, except that the
illegal-transition warning in `LoopController.setEnd` is recorded as an event.
-/

namespace SubtitleLoop

/-! ## JavaScript string primitives -/

/-- JavaScript whitespace (the characters relevant to `trim` / `parseInt`
leading-whitespace skipping): space, tab, LF, CR, VT, FF. -/
def isJsWs (c : Char) : Bool :=
  c.toNat == 32 || c.toNat == 9 || c.toNat == 10 || c.toNat == 13 ||
  c.toNat == 11 || c.toNat == 12

/-- ASCII decimal digit test. -/
def isDigit (c : Char) : Bool :=
  48 ≤ c.toNat && c.toNat ≤ 57

/-- Numeric value of a digit character. -/
def charVal (c : Char) : Nat := c.toNat - 48

/-- Value of a most-significant-first digit string, as accumulated by a
left-to-right scan (the value `parseInt` computes from the digit prefix). -/
def digitsVal (ds : List Char) : Nat :=
  ds.foldl (fun a c => a * 10 + charVal c) 0

/-- The maximal digit prefix of `l`, as a `Nat`; `none` when there is no
digit at the front (JS `NaN`). -/
def parseNatPrefix (l : List Char) : Option Nat :=
  let ds := l.takeWhile isDigit
  if ds.isEmpty then none else some (digitsVal ds)

/-- Model of JavaScript `parseInt(s, 10)`: skip leading whitespace, read an
optional sign, then the maximal run of decimal digits; `NaN` (here `none`)
when no digit follows, ignoring any trailing garbage. -/
def parseIntJS (l : List Char) : Option Int :=
  match l.dropWhile isJsWs with
  | [] => none
  | c :: rest =>
    if c = '-' then (parseNatPrefix rest).map (fun n => -(n : Int))
    else if c = '+' then (parseNatPrefix rest).map (fun n => (n : Int))
    else (parseNatPrefix (c :: rest)).map (fun n => (n : Int))

/-- Model of JavaScript `String.prototype.split(':')` (no limit argument). -/
def splitOnColon : List Char → List (List Char)
  | [] => [[]]
  | c :: rest =>
    if c = ':' then [] :: splitOnColon rest
    else
      match splitOnColon rest with
      | [] => [[c]]
      | l :: ls => (c :: l) :: ls

/-- Model of JavaScript `String.prototype.trim()`. -/
def jsTrim (l : List Char) : List Char :=
  ((l.dropWhile isJsWs).reverse.dropWhile isJsWs).reverse

/-- A decimal digit as a character. -/
def digitChar : Nat → Char
  | 0 => '0' | 1 => '1' | 2 => '2' | 3 => '3' | 4 => '4'
  | 5 => '5' | 6 => '6' | 7 => '7' | 8 => '8' | _ => '9'

/-- Decimal rendering of a natural number, most significant digit first
(JavaScript template-literal rendering of a non-negative integer). -/
def natToChars (n : Nat) : List Char :=
  if _h : n < 10 then [digitChar n]
  else natToChars (n / 10) ++ [digitChar (n % 10)]
  decreasing_by exact Nat.div_lt_self (by omega) (by omega)

/-- Decimal rendering of an integer (JavaScript rendering of an integral
number). -/
def intToChars (i : Int) : List Char :=
  if i < 0 then '-' :: natToChars i.natAbs else natToChars i.toNat

/-- Model of JavaScript `String.prototype.padStart(2, '0')`. -/
def padStart2 (l : List Char) : List Char :=
  List.replicate (2 - l.length) '0' ++ l

/-! ## `src/content/transcript.ts`: `parseTimestamp` and `formatTimestamp` -/

/-- Embedding of `parseTimestamp` (transcript.ts lines 8–26):
trim, split on `:`, `parseInt` each part; `0` if any part is `NaN`
(a warning is logged, nothing is thrown); `M*60+S` for two parts,
`H*3600+M*60+S` for three parts, `0` otherwise. -/
def parseTimestamp (timeStr : List Char) : Int :=
  let cleaned := jsTrim timeStr
  let parts := (splitOnColon cleaned).map parseIntJS
  if parts.any (fun p => p.isNone) then 0
  else
    match parts with
    | [some a, some b] => a * 60 + b
    | [some a, some b, some c] => a * 3600 + b * 60 + c
    | _ => 0

/-- Embedding of `formatTimestamp` (transcript.ts lines 32–42):
`totalSeconds = Math.floor(seconds)`; `hours = Math.floor(totalSeconds/3600)`
is floor division, `minutes = Math.floor((totalSeconds % 3600)/60)` and
`secs = totalSeconds % 60` use the JS truncating remainder (`Int.tmod`). -/
def formatTimestamp (seconds : ℚ) : List Char :=
  let totalSeconds : Int := Int.floor seconds
  let hours : Int := Int.fdiv totalSeconds 3600
  let minutes : Int := Int.fdiv (Int.tmod totalSeconds 3600) 60
  let secs : Int := Int.tmod totalSeconds 60
  if hours > 0 then
    intToChars hours ++ ':' :: padStart2 (intToChars minutes)
      ++ ':' :: padStart2 (intToChars secs)
  else
    intToChars minutes ++ ':' :: padStart2 (intToChars secs)

/-! ## `src/content/transcript.ts`: segment queries -/

/-- A transcript segment (types.ts `TranscriptSegment`; the DOM `element`
reference plays no role in the query functions and is omitted). -/
structure Segment where
  index : Nat
  startTime : ℚ
  text : String
deriving DecidableEq, Repr

/-- The loop condition of `findSegmentAtTime` (transcript.ts line 131):
`currentTime >= segment.startTime && currentTime < segmentEnd` where
`segmentEnd` is the next segment's start or `Infinity` (line 129). -/
def atTimeCond (s : Segment) (next : Option Segment) (t : ℚ) : Bool :=
  decide (s.startTime ≤ t) &&
    (match next with
     | some nx => decide (t < nx.startTime)
     | none => true)

/-- Embedding of `findSegmentAtTime` (transcript.ts lines 121–136): scan the
segments in index order; return the first whose window `[startTime, next
startTime or +infinity)` contains `currentTime`; `null` when no window does. -/
def findSegmentAtTime : List Segment → ℚ → Option Segment
  | [], _ => none
  | s :: rest, t =>
    if atTimeCond s rest.head? t then some s else findSegmentAtTime rest t

/-- Model of JavaScript `Array.prototype.join(' ')`. -/
def joinSpace : List String → String
  | [] => ""
  | [t] => t
  | t :: rest => t ++ " " ++ joinSpace rest

/-- Embedding of `getTextForRange` (transcript.ts lines 141–151): filter the
segments with `startTime >= start && startTime < end`, take their texts,
join with a single space. -/
def getTextForRange (segments : List Segment) (startTime endTime : ℚ) : String :=
  let relevantSegments := segments.filter
    (fun seg => decide (startTime ≤ seg.startTime) && decide (seg.startTime < endTime))
  joinSpace (relevantSegments.map (fun seg => seg.text))

/-- Spec-side selection, written from the spec's words: "the `text` of every
segment with `start ≤ segment.startTime < end`", in list order. Used only to
compare against the source-derived `getTextForRange`. -/
def rangeTexts (startTime endTime : ℚ) : List Segment → List String
  | [] => []
  | s :: rest =>
    if startTime ≤ s.startTime ∧ s.startTime < endTime then
      s.text :: rangeTexts startTime endTime rest
    else rangeTexts startTime endTime rest

/-! ## `LoopController` (player module, `src/unnamed/part_000`)

The controller's fields are `startTime`, `endTime`, `isActive`, `intervalId`
and the `onStateChange` callback slot (modelled as the Boolean
`hasCallback`, since only its presence matters to control flow).  The host
`window` timer registry is modelled alongside: `nextTimerId` is the next id
`window.setInterval` would hand out and `liveTimers` the currently
registered interval timers.  Effects (`seekTo` attempts, state-change
notifications, the illegal-transition warning) are recorded as events. -/

/-- The `LoopState` snapshot (types.ts). -/
structure LoopState where
  isActive : Bool
  startTime : Option ℚ
  endTime : Option ℚ
deriving DecidableEq, Repr

/-- Controller state plus the host timer registry. -/
structure Ctrl where
  startTime : Option ℚ
  endTime : Option ℚ
  isActive : Bool
  intervalId : Option Nat
  hasCallback : Bool
  nextTimerId : Nat
  liveTimers : List Nat
deriving DecidableEq, Repr

/-- Observable effects of a controller call. -/
inductive Event where
  /-- a `seekTo(t)` attempt (its Boolean result is ignored by the controller) -/
  | seek (t : ℚ)
  /-- the `onStateChange` callback invoked with a state snapshot -/
  | notify (st : LoopState)
  /-- the `console.warn` in `setEnd` without a prior start -/
  | warn
deriving DecidableEq, Repr

/-- A fresh controller (constructor): no bounds, inactive, no interval;
`hasCallback` records whether an `onStateChange` callback was supplied. -/
def initCtrl (hasCallback : Bool) : Ctrl :=
  { startTime := none, endTime := none, isActive := false, intervalId := none,
    hasCallback := hasCallback, nextTimerId := 0, liveTimers := [] }

/-- Embedding of `getState()`: the `{isActive, startTime, endTime}` snapshot. -/
def getState (c : Ctrl) : LoopState :=
  { isActive := c.isActive, startTime := c.startTime, endTime := c.endTime }

/-- Embedding of `notifyStateChange()`: call `onStateChange(getState())` when a callback
is registered, otherwise do nothing. -/
def notifyStateChange (c : Ctrl) : List Event :=
  if c.hasCallback then [Event.notify (getState c)] else []

/-- Embedding of `isSettingStart()`: start set, end unset, not active. -/
def isSettingStart (c : Ctrl) : Bool :=
  c.startTime.isSome && c.endTime.isNone && !c.isActive

/-- Embedding of `startMonitoring()`: early-return when an interval is already
registered; otherwise register a fresh interval timer with `window`. -/
def startMonitoring (c : Ctrl) : Ctrl :=
  if c.intervalId.isSome then c
  else
    { c with intervalId := some c.nextTimerId,
             liveTimers := c.nextTimerId :: c.liveTimers,
             nextTimerId := c.nextTimerId + 1 }

/-- Embedding of `stopMonitoring()`: clear the registered interval, if any. -/
def stopMonitoring (c : Ctrl) : Ctrl :=
  match c.intervalId with
  | none => c
  | some i => { c with intervalId := none, liveTimers := c.liveTimers.erase i }

/-- Embedding of `activate()` (private): guard on both bounds present; set `isActive`,
start monitoring, seek to the loop start, notify. -/
def activate (c : Ctrl) : Ctrl × List Event :=
  match c.startTime, c.endTime with
  | some s, some _ =>
    let c2 := startMonitoring { c with isActive := true }
    (c2, Event.seek s :: notifyStateChange c2)
  | _, _ => (c, [])

/-- Embedding of `setStart(time)`: store the start time and notify.  (The source does not
touch `endTime`, `isActive` or the interval here.) -/
def setStart (c : Ctrl) (time : ℚ) : Ctrl × List Event :=
  let c1 := { c with startTime := some time }
  (c1, notifyStateChange c1)

/-- Embedding of `setEnd(time)`: warn and return when no start is set; otherwise store
the normalized `min`/`max` bounds and `activate()`. -/
def setEnd (c : Ctrl) (time : ℚ) : Ctrl × List Event :=
  match c.startTime with
  | none => (c, [Event.warn])
  | some s =>
    activate { c with startTime := some (min s time), endTime := some (max s time) }

/-- Embedding of `setLoop(start, end)`: store the normalized bounds and `activate()`. -/
def setLoop (c : Ctrl) (s e : ℚ) : Ctrl × List Event :=
  activate { c with startTime := some (min s e), endTime := some (max s e) }

/-- Embedding of `clear()`: stop monitoring, null both bounds, deactivate, notify. -/
def clear (c : Ctrl) : Ctrl × List Event :=
  let c1 := stopMonitoring c
  let c2 := { c1 with startTime := none, endTime := none, isActive := false }
  (c2, notifyStateChange c2)

/-- Embedding of `destroy()`: stop monitoring and drop the callback. -/
def destroy (c : Ctrl) : Ctrl :=
  { stopMonitoring c with hasCallback := false }

/-- One tick of the `setInterval` callback installed by `startMonitoring`:
do nothing unless active with both bounds; seek back to `startTime` when the
current playback position has reached `endTime`. -/
def pollTick (c : Ctrl) (currentTime : ℚ) : List Event :=
  if !c.isActive || c.startTime.isNone || c.endTime.isNone then []
  else
    match c.startTime, c.endTime with
    | some s, some e => if e ≤ currentTime then [Event.seek s] else []
    | _, _ => []

/-- The controller's public mutating calls (plus `destroy`), for stating
reachability. -/
inductive Op where
  | opSetStart (t : ℚ)
  | opSetEnd (t : ℚ)
  | opSetLoop (a b : ℚ)
  | opClear
  | opDestroy
deriving DecidableEq, Repr

/-- Apply one call, discarding its events. -/
def applyOp (c : Ctrl) : Op → Ctrl
  | Op.opSetStart t => (setStart c t).1
  | Op.opSetEnd t => (setEnd c t).1
  | Op.opSetLoop a b => (setLoop c a b).1
  | Op.opClear => (clear c).1
  | Op.opDestroy => destroy c

/-- Run a call sequence from a fresh controller. -/
def runOps (hasCallback : Bool) (ops : List Op) : Ctrl :=
  ops.foldl applyOp (initCtrl hasCallback)

/-- States reachable from a fresh controller by any call sequence. -/
inductive Reachable : Ctrl → Prop where
  | init (hasCallback : Bool) : Reachable (initCtrl hasCallback)
  | step {c : Ctrl} (h : Reachable c) (op : Op) : Reachable (applyOp c op)

/-- The state snapshots delivered to the `onStateChange` callback among a
call's events, in order. -/
def notifications : List Event → List LoopState
  | [] => []
  | Event.notify st :: r => st :: notifications r
  | _ :: r => notifications r

/-- Structural invariant of reachable controller states: the end bound is
set exactly when the loop is active, an active loop has a start bound, and
the live `window` interval timers are exactly the controller's registered
one. -/
def CtrlInv (c : Ctrl) : Prop :=
  c.endTime.isSome = c.isActive ∧
  (c.isActive = true → c.startTime.isSome = true) ∧
  c.liveTimers = c.intervalId.toList

/-- The three-segment example list of spec §8. -/
def demoSegs : List Segment :=
  [{ index := 0, startTime := 0, text := "a" },
   { index := 1, startTime := 10, text := "b" },
   { index := 2, startTime := 20, text := "c" }]

/-! ## Helper lemmas: the controller invariant holds in every reachable state -/

theorem ctrlInv_init (hc : Bool) : CtrlInv (initCtrl hc) := by
  refine ⟨rfl, ?_, rfl⟩
  intro h
  simp [initCtrl] at h

theorem ctrlInv_activate {c : Ctrl} (h3 : c.liveTimers = c.intervalId.toList)
    (s e : ℚ) :
    CtrlInv (activate { c with startTime := some s, endTime := some e }).1 := by
  unfold activate startMonitoring
  cases hi : c.intervalId with
  | none => simp [CtrlInv, hi, h3]
  | some i => simp [CtrlInv, hi, h3]

theorem ctrlInv_stop {c : Ctrl} (h : CtrlInv c) : CtrlInv (stopMonitoring c) := by
  obtain ⟨h1, h2, h3⟩ := h
  unfold stopMonitoring
  cases hi : c.intervalId with
  | none => exact ⟨h1, h2, h3⟩
  | some i =>
    refine ⟨h1, h2, ?_⟩
    simp [hi] at h3
    simp [h3]

theorem ctrlInv_applyOp {c : Ctrl} (h : CtrlInv c) (op : Op) :
    CtrlInv (applyOp c op) := by
  obtain ⟨h1, h2, h3⟩ := h
  cases op with
  | opSetStart t => exact ⟨h1, fun _ => rfl, h3⟩
  | opSetEnd t =>
    cases hs : c.startTime with
    | none => simpa [applyOp, setEnd, hs] using ⟨h1, h2, h3⟩
    | some s =>
      simp only [applyOp, setEnd, hs]
      exact ctrlInv_activate h3 (min s t) (max s t)
  | opSetLoop a b =>
    simp only [applyOp, setLoop]
    exact ctrlInv_activate h3 (min a b) (max a b)
  | opClear =>
    have hstop := ctrlInv_stop ⟨h1, h2, h3⟩
    exact ⟨rfl, fun hh => (Bool.false_ne_true hh).elim, hstop.2.2⟩
  | opDestroy =>
    have hstop := ctrlInv_stop ⟨h1, h2, h3⟩
    obtain ⟨g1, g2, g3⟩ := hstop
    exact ⟨g1, g2, g3⟩

theorem reachable_ctrlInv {c : Ctrl} (h : Reachable c) : CtrlInv c := by
  induction h with
  | init hc => exact ctrlInv_init hc
  | step h op ih => exact ctrlInv_applyOp ih op

theorem reachable_runOps (hc : Bool) (ops : List Op) : Reachable (runOps hc ops) := by
  suffices h : ∀ c, Reachable c → Reachable (ops.foldl applyOp c) from
    h _ (Reachable.init hc)
  induction ops with
  | nil => intro c hc2; exact hc2
  | cons op rest ih => intro c hc2; exact ih _ (Reachable.step hc2 op)

/-! ## Claim theorems -/

/-- C1 (counterexample): after `setLoop(10, 20)` the controller is Active
with a registered interval; `setStart(30)` then leaves `endTime = 20` (not
null), the interval registered and the loop active — the claim that
`setStart` always clears the end bound and stops polling is false. -/
theorem setStart_stale_end_cex :
    (setStart (runOps true [Op.opSetLoop 10 20]) 30).1.endTime = some 20 ∧
    (setStart (runOps true [Op.opSetLoop 10 20]) 30).1.intervalId = some 0 ∧
    (setStart (runOps true [Op.opSetLoop 10 20]) 30).1.liveTimers = [0] ∧
    (setStart (runOps true [Op.opSetLoop 10 20]) 30).1.isActive = true := by
  decide

/-- C1 (amended): `setStart(t)` stores `startTime = t` and notifies, leaving
`endTime`, `isActive` and the polling interval untouched; from Idle or
SettingStart (end bound null, inactive) the controller is therefore in
SettingStart with `startTime = t` and `endTime = null`, but a prior end
bound is not cleared and polling is not stopped. -/
theorem setStart_only_sets_start (c : Ctrl) (t : ℚ) :
    (setStart c t).1.startTime = some t ∧
    (setStart c t).1.endTime = c.endTime ∧
    (setStart c t).1.isActive = c.isActive ∧
    (setStart c t).1.intervalId = c.intervalId ∧
    (setStart c t).1.liveTimers = c.liveTimers ∧
    (c.endTime = none → c.isActive = false →
      isSettingStart (setStart c t).1 = true) := by
  refine ⟨rfl, rfl, rfl, rfl, rfl, ?_⟩
  intro h1 h2
  simp [isSettingStart, setStart, h1, h2]

/-- C1 (witness): from a fresh controller, `setStart(5)` reaches
SettingStart. -/
theorem setStart_only_sets_start_witness :
    isSettingStart (setStart (initCtrl true) 5).1 = true :=
  (setStart_only_sets_start (initCtrl true) 5).2.2.2.2.2 rfl rfl

/-- C2 (counterexample): `setLoop(5, 5)` reaches a state with
`startTime = endTime = 5`, so the claimed strict inequality
`startTime < endTime` fails in a reachable state with both bounds set. -/
theorem loop_strict_order_cex :
    ¬ (∀ c : Ctrl, Reachable c → ∀ s e : ℚ,
        c.startTime = some s → c.endTime = some e → s < e) := by
  intro hall
  exact lt_irrefl (5 : ℚ)
    (hall (runOps true [Op.opSetLoop 5 5]) (reachable_runOps true _) 5 5
      (by decide) (by decide))

/-- C2 (amended): in every reachable state, both bounds are non-null exactly
when `isActive` is true; no ordering between the bounds is guaranteed (they
are equal after `setLoop(t, t)`, and `setStart` while Active can leave
`startTime > endTime`). -/
theorem reachable_bounds_iff_active (c : Ctrl) (h : Reachable c) :
    (c.startTime ≠ none ∧ c.endTime ≠ none) ↔ c.isActive = true := by
  obtain ⟨h1, h2, h3⟩ := reachable_ctrlInv h
  constructor
  · rintro ⟨-, he⟩
    rw [← h1]
    exact Option.ne_none_iff_isSome.mp he
  · intro ha
    exact ⟨Option.ne_none_iff_isSome.mpr (h2 ha),
           Option.ne_none_iff_isSome.mpr (h1.trans ha)⟩

/-- C2 (witness): `setLoop(1, 2)` reaches a state with both bounds set,
hence active. -/
theorem reachable_bounds_iff_active_witness :
    (runOps true [Op.opSetLoop 1 2]).isActive = true :=
  (reachable_bounds_iff_active _ (reachable_runOps true _)).mp
    ⟨by decide, by decide⟩

/-- C3: `setEnd(t)` with no start set is a no-op that only warns; with
`startTime = s` it normalizes to `min`/`max`, becomes Active, has a
registered interval, and its first effect is a seek to the normalized start;
`setStart(5)` then `setEnd(2)` yields
`{isActive: true, startTime: 2, endTime: 5}`. -/
theorem setEnd_guard_and_activation (c : Ctrl) (t : ℚ) :
    (c.startTime = none → setEnd c t = (c, [Event.warn])) ∧
    (∀ s : ℚ, c.startTime = some s →
      (setEnd c t).1.startTime = some (min s t) ∧
      (setEnd c t).1.endTime = some (max s t) ∧
      (setEnd c t).1.isActive = true ∧
      (setEnd c t).1.intervalId.isSome = true ∧
      (setEnd c t).2.head? = some (Event.seek (min s t))) ∧
    getState (runOps true [Op.opSetStart 5, Op.opSetEnd 2]) =
      { isActive := true, startTime := some 2, endTime := some 5 } := by
  refine ⟨?_, ?_, by decide⟩
  · intro h
    simp [setEnd, h]
  · intro s hs
    cases hi : c.intervalId with
    | none => simp [setEnd, hs, activate, startMonitoring, hi]
    | some i => simp [setEnd, hs, activate, startMonitoring, hi]

/-- C3 (witness): `setEnd(7)` on a fresh controller is the warned no-op. -/
theorem setEnd_guard_witness :
    setEnd (initCtrl true) 7 = (initCtrl true, [Event.warn]) :=
  (setEnd_guard_and_activation (initCtrl true) 7).1 rfl

/-- C4: in a reachable state a poll tick attempts a seek exactly when the
loop is active and the playback position has reached the end bound, and the
seek target is then exactly `startTime` (level-triggered); a tick right
after `clear()` does nothing for every position. -/
theorem pollTick_seek_iff (c : Ctrl) (h : Reachable c) (p : ℚ) :
    ((∃ s : ℚ, pollTick c p = [Event.seek s]) ↔
      c.isActive = true ∧ ∃ e : ℚ, c.endTime = some e ∧ e ≤ p) ∧
    (∀ s e : ℚ, c.startTime = some s → c.endTime = some e →
      c.isActive = true → e ≤ p → pollTick c p = [Event.seek s]) ∧
    (∀ q : ℚ, pollTick (clear c).1 q = []) := by
  obtain ⟨h1, h2, h3⟩ := reachable_ctrlInv h
  refine ⟨⟨?_, ?_⟩, ?_, fun q => rfl⟩
  · rintro ⟨s, hs⟩
    cases ha : c.isActive with
    | false => simp [pollTick, ha] at hs
    | true =>
      obtain ⟨s0, hs0⟩ := Option.isSome_iff_exists.mp (h2 ha)
      obtain ⟨e, he⟩ := Option.isSome_iff_exists.mp (h1.trans ha)
      refine ⟨rfl, e, he, ?_⟩
      by_cases hep : e ≤ p
      · exact hep
      · simp [pollTick, ha, hs0, he, hep] at hs
  · rintro ⟨ha, e, he, hep⟩
    obtain ⟨s0, hs0⟩ := Option.isSome_iff_exists.mp (h2 ha)
    exact ⟨s0, by simp [pollTick, ha, hs0, he, hep]⟩
  · intro s e hs he ha hep
    simp [pollTick, ha, hs, he, hep]

/-- C4 (witness): with the loop `[10, 20)` active and the playback position
at `21`, the tick seeks exactly to `10`. -/
theorem pollTick_seek_iff_witness :
    pollTick (runOps true [Op.opSetLoop 10 20]) 21 = [Event.seek 10] :=
  (pollTick_seek_iff _ (reachable_runOps true _) 21).2.1 10 20
    (by decide) (by decide) (by decide) (by decide)

/-- C9: with a callback registered, each of `setStart`, `setEnd` (when it
mutates), `setLoop` and `clear` delivers exactly one state-change
notification whose payload is the snapshot of the state after the mutation;
with no callback registered, no notification is delivered and the call
still completes. -/
theorem mutators_notify_once (c : Ctrl) (t a b : ℚ) :
    (c.hasCallback = true →
      notifications (setStart c t).2 = [getState (setStart c t).1] ∧
      (∀ s : ℚ, c.startTime = some s →
        notifications (setEnd c t).2 = [getState (setEnd c t).1]) ∧
      notifications (setLoop c a b).2 = [getState (setLoop c a b).1] ∧
      notifications (clear c).2 = [getState (clear c).1]) ∧
    (c.hasCallback = false →
      notifications (setStart c t).2 = [] ∧
      notifications (setEnd c t).2 = [] ∧
      notifications (setLoop c a b).2 = [] ∧
      notifications (clear c).2 = []) := by
  constructor
  · intro hcb
    refine ⟨?_, ?_, ?_, ?_⟩
    · simp [setStart, notifyStateChange, hcb, notifications]
    · intro s hs
      cases hi : c.intervalId with
      | none =>
        simp [setEnd, hs, activate, startMonitoring, hi, notifyStateChange,
          hcb, notifications]
      | some i =>
        simp [setEnd, hs, activate, startMonitoring, hi, notifyStateChange,
          hcb, notifications]
    · cases hi : c.intervalId with
      | none =>
        simp [setLoop, activate, startMonitoring, hi, notifyStateChange,
          hcb, notifications]
      | some i =>
        simp [setLoop, activate, startMonitoring, hi, notifyStateChange,
          hcb, notifications]
    · cases hi : c.intervalId with
      | none =>
        simp [clear, stopMonitoring, hi, notifyStateChange, hcb,
          notifications]
      | some i =>
        simp [clear, stopMonitoring, hi, notifyStateChange, hcb,
          notifications]
  · intro hcb
    refine ⟨?_, ?_, ?_, ?_⟩
    · simp [setStart, notifyStateChange, hcb, notifications]
    · cases hs : c.startTime with
      | none => simp [setEnd, hs, notifications]
      | some s =>
        cases hi : c.intervalId with
        | none =>
          simp [setEnd, hs, activate, startMonitoring, hi,
            notifyStateChange, hcb, notifications]
        | some i =>
          simp [setEnd, hs, activate, startMonitoring, hi,
            notifyStateChange, hcb, notifications]
    · cases hi : c.intervalId with
      | none =>
        simp [setLoop, activate, startMonitoring, hi, notifyStateChange,
          hcb, notifications]
      | some i =>
        simp [setLoop, activate, startMonitoring, hi, notifyStateChange,
          hcb, notifications]
    · cases hi : c.intervalId with
      | none =>
        simp [clear, stopMonitoring, hi, notifyStateChange, hcb,
          notifications]
      | some i =>
        simp [clear, stopMonitoring, hi, notifyStateChange, hcb,
          notifications]

/-- C9 (witness): `clear()` on a fresh controller with a callback delivers
exactly the post-mutation snapshot. -/
theorem mutators_notify_once_witness :
    notifications (clear (initCtrl true)).2 = [getState (clear (initCtrl true)).1] :=
  ((mutators_notify_once (initCtrl true) 0 0 0).1 rfl).2.2.2

/-- C10: in every reachable state the live `window` interval timers are
exactly the controller's registered one (hence at most one timer exists);
`startMonitoring` is a no-op when an interval is already registered; and
`clear()`/`destroy()` leave no live timer. -/
theorem at_most_one_timer (c : Ctrl) (h : Reachable c) :
    c.liveTimers = c.intervalId.toList ∧
    c.liveTimers.length ≤ 1 ∧
    (c.intervalId.isSome = true → startMonitoring c = c) ∧
    (clear c).1.liveTimers = [] ∧
    (destroy c).liveTimers = [] := by
  obtain ⟨h1, h2, h3⟩ := reachable_ctrlInv h
  have hstop : (stopMonitoring c).liveTimers = [] := by
    unfold stopMonitoring
    cases hi : c.intervalId with
    | none => simpa [hi] using h3
    | some i =>
      simp [hi] at h3
      simp [h3]
  refine ⟨h3, ?_, ?_, hstop, hstop⟩
  · rw [h3]
    cases c.intervalId <;> simp
  · intro hi
    simp [startMonitoring, hi]

/-- C10 (witness): activating twice (`setLoop` then `setEnd` while Active)
still leaves at most one live timer. -/
theorem at_most_one_timer_witness :
    (runOps true [Op.opSetLoop 1 2, Op.opSetEnd 3]).liveTimers.length ≤ 1 :=
  (at_most_one_timer _ (reachable_runOps true _)).2.1

/-! ## Helper lemmas for `findSegmentAtTime` -/

theorem find_eq_none_of_lt_all {segs : List Segment} {t : ℚ}
    (h : ∀ s ∈ segs, t < s.startTime) : findSegmentAtTime segs t = none := by
  induction segs with
  | nil => rfl
  | cons s0 rest ih =>
    have hs : ¬ s0.startTime ≤ t := not_le.mpr (h s0 (List.mem_cons_self _ _))
    simp only [findSegmentAtTime, atTimeCond]
    rw [if_neg (by simp [hs])]
    exact ih (fun x hx => h x (List.mem_cons_of_mem _ hx))

theorem find_isSome_of_head_le {segs : List Segment} {t : ℚ} {nx : Segment}
    (hh : segs.head? = some nx) (hle : nx.startTime ≤ t) :
    (findSegmentAtTime segs t).isSome = true := by
  induction segs generalizing nx with
  | nil => simp at hh
  | cons s0 rest ih =>
    have heq : s0 = nx := by simpa using hh
    subst heq
    by_cases hc : atTimeCond s0 rest.head? t = true
    · simp [findSegmentAtTime, hc]
    · simp only [findSegmentAtTime]
      rw [if_neg hc]
      simp only [atTimeCond, Bool.and_eq_true, decide_eq_true_eq, not_and] at hc
      have h2 := hc hle
      cases hr : rest.head? with
      | none => rw [hr] at h2; simp at h2
      | some nx2 =>
        rw [hr] at h2
        simp only [decide_eq_true_eq] at h2
        exact ih hr (not_lt.mp (fun hlt => h2 (by simp [hlt])))

theorem find_sound {segs : List Segment} {t : ℚ} {s : Segment}
    (h : findSegmentAtTime segs t = some s) :
    ∃ i : Nat, ∃ hi : i < segs.length,
      segs.get ⟨i, hi⟩ = s ∧ s.startTime ≤ t ∧
      ∀ hi2 : i + 1 < segs.length, t < (segs.get ⟨i + 1, hi2⟩).startTime := by
  induction segs with
  | nil => simp [findSegmentAtTime] at h
  | cons s0 rest ih =>
    by_cases hc : atTimeCond s0 rest.head? t = true
    · rw [findSegmentAtTime, if_pos hc] at h
      obtain rfl : s0 = s := by simpa using h
      simp only [atTimeCond, Bool.and_eq_true, decide_eq_true_eq] at hc
      refine ⟨0, Nat.succ_pos _, rfl, hc.1, ?_⟩
      intro hi2
      have hr : rest ≠ [] := by
        intro he
        rw [he] at hi2
        simp at hi2
      cases rest with
      | nil => exact absurd rfl hr
      | cons nx rest' =>
        have := hc.2
        simp only [List.head?_cons, decide_eq_true_eq] at this
        exact this
    · rw [findSegmentAtTime, if_neg hc] at h
      obtain ⟨i, hi, hg, hle, hnext⟩ := ih h
      refine ⟨i + 1, by simpa using Nat.succ_lt_succ hi, hg, hle, ?_⟩
      intro hi2
      have hi2' : i + 1 < rest.length := by
        simpa using Nat.lt_of_succ_lt_succ hi2
      exact hnext hi2'

theorem find_complete {segs : List Segment} {t : ℚ}
    (hsorted : segs.Pairwise (fun x y => x.startTime < y.startTime))
    (i : Nat) (hi : i < segs.length)
    (hle : (segs.get ⟨i, hi⟩).startTime ≤ t)
    (hnext : ∀ hi2 : i + 1 < segs.length, t < (segs.get ⟨i + 1, hi2⟩).startTime) :
    findSegmentAtTime segs t = some (segs.get ⟨i, hi⟩) := by
  induction segs generalizing i with
  | nil => simp at hi
  | cons s0 rest ih =>
    obtain ⟨h0, hrest⟩ := List.pairwise_cons.mp hsorted
    cases i with
    | zero =>
      have hc : atTimeCond s0 rest.head? t = true := by
        simp only [atTimeCond, Bool.and_eq_true, decide_eq_true_eq]
        refine ⟨hle, ?_⟩
        cases rest with
        | nil => simp
        | cons nx rest' =>
          simp only [List.head?_cons, decide_eq_true_eq]
          exact hnext (by simp [Nat.succ_lt_succ, Nat.succ_pos])
      rw [findSegmentAtTime, if_pos hc]
      rfl
    | succ j =>
      have hj : j < rest.length := Nat.lt_of_succ_lt_succ hi
      have hgj : ((s0 :: rest).get ⟨j + 1, hi⟩) = rest.get ⟨j, hj⟩ := rfl
      have hc : ¬ atTimeCond s0 rest.head? t = true := by
        simp only [atTimeCond, Bool.and_eq_true, decide_eq_true_eq, not_and]
        intro _
        cases rest with
        | nil => simp at hj
        | cons nx rest' =>
          simp only [List.head?_cons, decide_eq_true_eq]
          intro hlt
          have hnxle : nx.startTime ≤ ((nx :: rest').get ⟨j, hj⟩).startTime := by
            cases j with
            | zero => exact le_refl _
            | succ k =>
              have hk : k < rest'.length := Nat.lt_of_succ_lt_succ hj
              have : ((nx :: rest').get ⟨k + 1, hj⟩) = rest'.get ⟨k, hk⟩ := rfl
              rw [this]
              exact le_of_lt ((List.pairwise_cons.mp hrest).1 _
                (rest'.get_mem _ _))
          rw [hgj] at hle
          exact absurd hle (not_le.mpr (lt_of_lt_of_le hlt hnxle))
      rw [findSegmentAtTime, if_neg hc, hgj]
      refine ih hrest j hj (by rw [← hgj]; exact hle) ?_
      intro hj2
      have hi2 : j + 2 < (s0 :: rest).length := by
        simp only [List.length_cons]
        omega
      have : ((s0 :: rest).get ⟨j + 2, hi2⟩) = rest.get ⟨j + 1, hj2⟩ := rfl
      rw [← this]
      exact hnext hi2

/-! ## Claim theorems for the transcript queries -/

/-- C7: over a strictly-ascending segment list, `findSegmentAtTime` returns
exactly the segment whose half-open window (up to the next start, or
+infinity for the last segment) contains `t`; it returns `null` exactly
when the list is empty or `t` precedes the first start — in particular for
every negative `t` when all starts are non-negative. -/
theorem findSegmentAtTime_spec (segments : List Segment)
    (hsorted : segments.Pairwise (fun x y => x.startTime < y.startTime))
    (t : ℚ) :
    (∀ s : Segment, findSegmentAtTime segments t = some s ↔
      ∃ i : Nat, ∃ hi : i < segments.length,
        segments.get ⟨i, hi⟩ = s ∧ s.startTime ≤ t ∧
        ∀ hi2 : i + 1 < segments.length,
          t < (segments.get ⟨i + 1, hi2⟩).startTime) ∧
    (findSegmentAtTime segments t = none ↔
      segments = [] ∨
        ∃ s0 : Segment, segments.head? = some s0 ∧ t < s0.startTime) ∧
    ((∀ s ∈ segments, 0 ≤ s.startTime) → t < 0 →
      findSegmentAtTime segments t = none) := by
  have hnonneg : (∀ s ∈ segments, 0 ≤ s.startTime) → t < 0 →
      findSegmentAtTime segments t = none := by
    intro hpos hneg
    exact find_eq_none_of_lt_all (fun s hs => lt_of_lt_of_le hneg (hpos s hs))
  refine ⟨?_, ?_, hnonneg⟩
  · intro s
    constructor
    · exact find_sound
    · rintro ⟨i, hi, hg, hle, hnext⟩
      rw [← hg]
      exact find_complete hsorted i hi (hg ▸ hle) hnext
  · constructor
    · intro hn
      cases hsegs : segments with
      | nil => exact Or.inl rfl
      | cons s0 rest =>
        refine Or.inr ⟨s0, by simp [hsegs], ?_⟩
        by_contra hge
        have hle : s0.startTime ≤ t := not_lt.mp hge
        have := @find_isSome_of_head_le segments t s0
          (by simp [hsegs]) hle
        rw [hn] at this
        simp at this
    · rintro (rfl | ⟨s0, hh, hlt⟩)
      · rfl
      · cases hsegs : segments with
        | nil => rfl
        | cons s1 rest =>
          obtain ⟨h0, hrest⟩ := List.pairwise_cons.mp (hsegs ▸ hsorted)
          obtain rfl : s1 = s0 := by
            rw [hsegs] at hh
            simpa using hh
          rw [← hsegs]
          refine find_eq_none_of_lt_all ?_
          intro s hs
          rw [hsegs] at hs
          rcases List.mem_cons.mp hs with rfl | hs'
          · exact hlt
          · exact lt_trans hlt (h0 s hs')

/-- C7 (witness): on the spec §8 list `[(0,a), (10,b), (20,c)]` the query at
`t = 15` returns the segment starting at `10`. -/
theorem findSegmentAtTime_spec_witness :
    findSegmentAtTime demoSegs 15 =
      some { index := 1, startTime := 10, text := "b" } := by
  have hi : 1 < demoSegs.length := by decide
  have hnext : ∀ hi2 : 1 + 1 < demoSegs.length,
      (15 : ℚ) < (demoSegs.get ⟨1 + 1, hi2⟩).startTime := by
    intro hi2
    exact of_decide_eq_true rfl
  exact ((findSegmentAtTime_spec demoSegs (by decide) 15).1 _).mpr
    ⟨1, hi, rfl, by decide, hnext⟩

/-- C8: `getTextForRange` returns exactly the texts of the segments whose
start lies in the half-open range `[start, end)`, in list order, joined by
single spaces (`rangeTexts` is written from the spec's words); the empty
list yields the empty string, and on the spec §8 list the range `[10, 20)`
excludes the segment starting exactly at `20`. -/
theorem getTextForRange_matches_spec (segments : List Segment) (a b : ℚ) :
    getTextForRange segments a b = joinSpace (rangeTexts a b segments) ∧
    getTextForRange [] a b = "" ∧
    getTextForRange demoSegs 10 20 = "b" := by
  have key : ∀ l : List Segment,
      (l.filter (fun seg => decide (a ≤ seg.startTime) &&
        decide (seg.startTime < b))).map (fun seg => seg.text) =
      rangeTexts a b l := by
    intro l
    induction l with
    | nil => rfl
    | cons s rest ih =>
      by_cases h1 : a ≤ s.startTime <;> by_cases h2 : s.startTime < b <;>
        simp [List.filter_cons, rangeTexts, h1, h2, ih]
  refine ⟨?_, rfl, by decide⟩
  show joinSpace _ = joinSpace (rangeTexts a b segments)
  rw [key segments]

/-! ## Helper lemmas for digit strings -/

theorem charVal_digitChar {d : Nat} (h : d < 10) : charVal (digitChar d) = d := by
  match d, h with
  | 0, _ => decide
  | 1, _ => decide
  | 2, _ => decide
  | 3, _ => decide
  | 4, _ => decide
  | 5, _ => decide
  | 6, _ => decide
  | 7, _ => decide
  | 8, _ => decide
  | 9, _ => decide

theorem isDigit_digitChar (d : Nat) : isDigit (digitChar d) = true := by
  match d with
  | 0 => decide
  | 1 => decide
  | 2 => decide
  | 3 => decide
  | 4 => decide
  | 5 => decide
  | 6 => decide
  | 7 => decide
  | 8 => decide
  | n + 9 => exact rfl

theorem not_ws_of_digit {c : Char} (h : isDigit c = true) : isJsWs c = false := by
  simp only [isDigit, Bool.and_eq_true, decide_eq_true_eq] at h
  simp only [isJsWs, Bool.or_eq_false_iff, beq_eq_false_iff_ne, ne_eq]
  omega

theorem digit_ne_colon {c : Char} (h : isDigit c = true) : c ≠ ':' := by
  intro heq
  subst heq
  simp [isDigit] at h

theorem digit_ne_dash {c : Char} (h : isDigit c = true) : c ≠ '-' := by
  intro heq
  subst heq
  simp [isDigit] at h

theorem digit_ne_plus {c : Char} (h : isDigit c = true) : c ≠ '+' := by
  intro heq
  subst heq
  simp [isDigit] at h

theorem foldl_digits_acc (l : List Char) (a : Nat) :
    l.foldl (fun x c => x * 10 + charVal c) a = a * 10 ^ l.length + digitsVal l := by
  induction l generalizing a with
  | nil => simp [digitsVal]
  | cons c l' ih =>
    show l'.foldl _ (a * 10 + charVal c)
      = a * 10 ^ (l'.length + 1) + digitsVal (c :: l')
    rw [ih (a * 10 + charVal c)]
    have : digitsVal (c :: l') = charVal c * 10 ^ l'.length + digitsVal l' := by
      show l'.foldl _ (0 * 10 + charVal c) = _
      rw [ih (0 * 10 + charVal c)]
      ring
    rw [this]
    ring

theorem digitsVal_append (l1 l2 : List Char) :
    digitsVal (l1 ++ l2) = digitsVal l1 * 10 ^ l2.length + digitsVal l2 := by
  show (l1 ++ l2).foldl _ 0 = _
  rw [List.foldl_append, ← digitsVal, foldl_digits_acc]

theorem natToChars_ne_nil (n : Nat) : natToChars n ≠ [] := by
  rw [natToChars]
  split
  · simp
  · simp

theorem natToChars_all_digits (n : Nat) :
    ∀ c ∈ natToChars n, isDigit c = true := by
  induction n using Nat.strong_induction_on with
  | _ n ih =>
    rw [natToChars]
    split
    · intro c hc
      rw [List.mem_singleton.mp hc]
      exact isDigit_digitChar n
    · rename_i h
      intro c hc
      rcases List.mem_append.mp hc with h1 | h2
      · exact ih (n / 10) (Nat.div_lt_self (by omega) (by omega)) c h1
      · rw [List.mem_singleton.mp h2]
        exact isDigit_digitChar (n % 10)

theorem digitsVal_natToChars (n : Nat) : digitsVal (natToChars n) = n := by
  induction n using Nat.strong_induction_on with
  | _ n ih =>
    rw [natToChars]
    split
    · rename_i h
      show digitsVal [digitChar n] = n
      show 0 * 10 + charVal (digitChar n) = n
      rw [charVal_digitChar h]
      omega
    · rename_i h
      rw [digitsVal_append, ih (n / 10) (Nat.div_lt_self (by omega) (by omega))]
      have h2 : digitsVal [digitChar (n % 10)] = n % 10 := by
        show 0 * 10 + charVal (digitChar (n % 10)) = n % 10
        rw [charVal_digitChar (Nat.mod_lt _ (by omega))]
        omega
      rw [h2]
      simp only [List.length_singleton, pow_one]
      omega

theorem takeWhile_all {p : Char → Bool} {l : List Char}
    (h : ∀ c ∈ l, p c = true) : l.takeWhile p = l := by
  induction l with
  | nil => rfl
  | cons c rest ih =>
    rw [List.takeWhile_cons, if_pos (h c (List.mem_cons_self _ _))]
    rw [ih (fun x hx => h x (List.mem_cons_of_mem _ hx))]

theorem parseIntJS_digits {l : List Char} (hne : l ≠ [])
    (hd : ∀ c ∈ l, isDigit c = true) :
    parseIntJS l = some ((digitsVal l : Nat) : Int) := by
  cases l with
  | nil => exact absurd rfl hne
  | cons c rest =>
    have hc : isDigit c = true := hd c (List.mem_cons_self _ _)
    have hws : isJsWs c = false := not_ws_of_digit hc
    simp only [parseIntJS, List.dropWhile_cons, hws, Bool.false_eq_true,
      if_false]
    rw [if_neg (digit_ne_dash hc), if_neg (digit_ne_plus hc)]
    simp only [parseNatPrefix, takeWhile_all hd]
    rw [if_neg (by simp)]
    rfl

theorem digitsVal_padStart2 (l : List Char) :
    digitsVal (padStart2 l) = digitsVal l := by
  show digitsVal (List.replicate (2 - l.length) '0' ++ l) = digitsVal l
  generalize 2 - l.length = k
  induction k with
  | zero => rfl
  | succ k ih =>
    rw [List.replicate_succ, List.cons_append]
    show digitsVal (List.replicate k '0' ++ l) = digitsVal l
    exact ih

theorem padStart2_all_digits {l : List Char}
    (h : ∀ c ∈ l, isDigit c = true) : ∀ c ∈ padStart2 l, isDigit c = true := by
  intro c hc
  rcases List.mem_append.mp hc with h1 | h2
  · rw [List.eq_of_mem_replicate h1]
    decide
  · exact h c h2

theorem padStart2_ne_nil {l : List Char} (h : l ≠ []) : padStart2 l ≠ [] := by
  intro he
  rcases List.append_eq_nil.mp he with ⟨-, h2⟩
  exact h h2

theorem splitOnColon_no_colon {l : List Char} (h : ':' ∉ l) :
    splitOnColon l = [l] := by
  induction l with
  | nil => rfl
  | cons c rest ih =>
    have hc : ¬ c = ':' := fun he => h (he ▸ List.mem_cons_self _ _)
    rw [splitOnColon, if_neg hc, ih (fun hm => h (List.mem_cons_of_mem _ hm))]

theorem splitOnColon_append {l1 l2 : List Char} (h : ':' ∉ l1) :
    splitOnColon (l1 ++ ':' :: l2) = l1 :: splitOnColon l2 := by
  induction l1 with
  | nil => simp [splitOnColon]
  | cons c r ih =>
    have hc : ¬ c = ':' := fun he => h (he ▸ List.mem_cons_self _ _)
    rw [List.cons_append, splitOnColon, if_neg hc,
      ih (fun hm => h (List.mem_cons_of_mem _ hm))]

theorem dropWhile_of_none {p : Char → Bool} {l : List Char}
    (h : ∀ c ∈ l, p c = false) : l.dropWhile p = l := by
  cases l with
  | nil => rfl
  | cons c rest =>
    rw [List.dropWhile_cons, if_neg (by simp [h c (List.mem_cons_self _ _)])]

theorem jsTrim_of_no_ws {l : List Char}
    (h : ∀ c ∈ l, isJsWs c = false) : jsTrim l = l := by
  unfold jsTrim
  rw [dropWhile_of_none h, dropWhile_of_none (by
    intro c hc
    exact h c (List.mem_reverse.mp hc)), List.reverse_reverse]

/-! ## Helper lemmas for `formatTimestamp` on non-negative integers -/

theorem formatTimestamp_natCast (s : Nat) :
    formatTimestamp (s : ℚ) =
      (if 0 < s / 3600 then
        natToChars (s / 3600) ++ ':' :: (padStart2 (natToChars (s % 3600 / 60))
          ++ ':' :: padStart2 (natToChars (s % 60)))
      else natToChars (s % 3600 / 60) ++ ':' :: padStart2 (natToChars (s % 60))) := by
  have hfloor : Int.floor ((s : ℚ)) = (s : ℤ) := Int.floor_natCast s
  have hfdiv : Int.fdiv (s : ℤ) 3600 = ((s / 3600 : Nat) : ℤ) := by
    rw [Int.fdiv_eq_ediv _ (by omega)]
    push_cast
    rfl
  have htmod : Int.tmod (s : ℤ) 3600 = ((s % 3600 : Nat) : ℤ) := rfl
  have hfdiv2 : Int.fdiv ((s % 3600 : Nat) : ℤ) 60 = ((s % 3600 / 60 : Nat) : ℤ) := by
    rw [Int.fdiv_eq_ediv _ (by omega)]
    push_cast
    rfl
  have htmod2 : Int.tmod (s : ℤ) 60 = ((s % 60 : Nat) : ℤ) := rfl
  have hchars : ∀ k : Nat, intToChars ((k : Nat) : ℤ) = natToChars k := by
    intro k
    rw [intToChars, if_neg (by exact not_lt.mpr (Int.ofNat_nonneg k))]
    simp
  simp only [formatTimestamp, hfloor, hfdiv, htmod, hfdiv2, htmod2, hchars]
  by_cases hpos : 0 < s / 3600
  · rw [if_pos (by exact_mod_cast hpos), if_pos hpos]
    simp [List.append_assoc]
  · rw [if_neg (by exact_mod_cast hpos), if_neg hpos]

theorem parseTimestamp_two_groups {A B : List Char}
    (hA : A ≠ []) (hdA : ∀ c ∈ A, isDigit c = true)
    (hB : B ≠ []) (hdB : ∀ c ∈ B, isDigit c = true) :
    parseTimestamp (A ++ ':' :: B) =
      (digitsVal A : ℤ) * 60 + (digitsVal B : ℤ) := by
  have hnws : ∀ c ∈ A ++ ':' :: B, isJsWs c = false := by
    intro c hc
    rcases List.mem_append.mp hc with h1 | h2
    · exact not_ws_of_digit (hdA c h1)
    · rcases List.mem_cons.mp h2 with rfl | h3
      · decide
      · exact not_ws_of_digit (hdB c h3)
  have hAnc : ':' ∉ A := fun hm => absurd (hdA ':' hm) (by decide)
  have hBnc : ':' ∉ B := fun hm => absurd (hdB ':' hm) (by decide)
  simp only [parseTimestamp]
  rw [jsTrim_of_no_ws hnws, splitOnColon_append hAnc, splitOnColon_no_colon hBnc]
  simp only [List.map_cons, List.map_nil]
  rw [parseIntJS_digits hA hdA, parseIntJS_digits hB hdB]
  simp

theorem parseTimestamp_three_groups {A B C : List Char}
    (hA : A ≠ []) (hdA : ∀ c ∈ A, isDigit c = true)
    (hB : B ≠ []) (hdB : ∀ c ∈ B, isDigit c = true)
    (hC : C ≠ []) (hdC : ∀ c ∈ C, isDigit c = true) :
    parseTimestamp (A ++ ':' :: (B ++ ':' :: C)) =
      (digitsVal A : ℤ) * 3600 + (digitsVal B : ℤ) * 60 + (digitsVal C : ℤ) := by
  have hnws : ∀ c ∈ A ++ ':' :: (B ++ ':' :: C), isJsWs c = false := by
    intro c hc
    rcases List.mem_append.mp hc with h1 | h2
    · exact not_ws_of_digit (hdA c h1)
    · rcases List.mem_cons.mp h2 with rfl | h3
      · decide
      · rcases List.mem_append.mp h3 with h4 | h5
        · exact not_ws_of_digit (hdB c h4)
        · rcases List.mem_cons.mp h5 with rfl | h6
          · decide
          · exact not_ws_of_digit (hdC c h6)
  have hAnc : ':' ∉ A := fun hm => absurd (hdA ':' hm) (by decide)
  have hBnc : ':' ∉ B := fun hm => absurd (hdB ':' hm) (by decide)
  have hCnc : ':' ∉ C := fun hm => absurd (hdC ':' hm) (by decide)
  simp only [parseTimestamp]
  rw [jsTrim_of_no_ws hnws, splitOnColon_append hAnc, splitOnColon_append hBnc,
    splitOnColon_no_colon hCnc]
  simp only [List.map_cons, List.map_nil]
  rw [parseIntJS_digits hA hdA, parseIntJS_digits hB hdB,
    parseIntJS_digits hC hdC]
  simp

/-! ## Claim theorems for the timestamp functions -/

/-- C5: for every non-negative integer number of seconds,
`parseTimestamp(formatTimestamp(s)) == s`; moreover `formatTimestamp`
renders `M:SS` below one hour and `H:MM:SS` from one hour on, zero-padding
the trailing two fields but never the leading unit. -/
theorem parse_format_roundtrip (s : Nat) :
    parseTimestamp (formatTimestamp (s : ℚ)) = (s : ℤ) ∧
    (s < 3600 → formatTimestamp (s : ℚ) =
      natToChars (s / 60) ++ ':' :: padStart2 (natToChars (s % 60))) ∧
    (3600 ≤ s → formatTimestamp (s : ℚ) =
      natToChars (s / 3600) ++ ':' ::
        (padStart2 (natToChars (s % 3600 / 60)) ++ ':' ::
          padStart2 (natToChars (s % 60)))) := by
  rw [formatTimestamp_natCast]
  by_cases h36 : 0 < s / 3600
  · have h3600 : 3600 ≤ s := by omega
    rw [if_pos h36]
    refine ⟨?_, fun hlt => absurd h3600 (by omega), fun _ => rfl⟩
    rw [parseTimestamp_three_groups (natToChars_ne_nil _)
      (natToChars_all_digits _)
      (padStart2_ne_nil (natToChars_ne_nil _))
      (padStart2_all_digits (natToChars_all_digits _))
      (padStart2_ne_nil (natToChars_ne_nil _))
      (padStart2_all_digits (natToChars_all_digits _))]
    rw [digitsVal_padStart2, digitsVal_padStart2, digitsVal_natToChars,
      digitsVal_natToChars, digitsVal_natToChars]
    push_cast
    omega
  · have h3600 : s < 3600 := by omega
    rw [if_neg h36]
    refine ⟨?_, fun _ => by rw [Nat.mod_eq_of_lt h3600],
      fun hge => absurd hge (by omega)⟩
    rw [parseTimestamp_two_groups (natToChars_ne_nil _)
      (natToChars_all_digits _)
      (padStart2_ne_nil (natToChars_ne_nil _))
      (padStart2_all_digits (natToChars_all_digits _))]
    rw [digitsVal_padStart2, digitsVal_natToChars, digitsVal_natToChars]
    push_cast
    omega

/-- C5 (witness): `formatTimestamp(83)` takes the `M:SS` shape. -/
theorem parse_format_roundtrip_witness :
    formatTimestamp ((83 : Nat) : ℚ) =
      natToChars (83 / 60) ++ ':' :: padStart2 (natToChars (83 % 60)) :=
  (parse_format_roundtrip 83).2.1 (by omega)

/-- C6 (counterexample): the code parses `"1:02:30"` to `3750`
(= 1·3600 + 2·60 + 30), not to `3722` as the claim states. -/
theorem parseTimestamp_example_cex :
    parseTimestamp ['1', ':', '0', '2', ':', '3', '0'] = 3750 ∧
    (3750 : ℤ) ≠ 3722 := by
  decide

/-- C6 (amended): `parseTimestamp` splits on `:` and `parseInt`s each
component; whenever any component fails to parse it returns `0` instead of
rejecting the input; `parseTimestamp("1:23") == 83`,
`parseTimestamp("1:02:30") == 3750` and `parseTimestamp("bad") == 0`. -/
theorem parseTimestamp_failure_and_examples :
    (∀ l : List Char,
      ((splitOnColon (jsTrim l)).map parseIntJS).any (fun p => p.isNone) = true →
      parseTimestamp l = 0) ∧
    parseTimestamp ['1', ':', '2', '3'] = 83 ∧
    parseTimestamp ['1', ':', '0', '2', ':', '3', '0'] = 3750 ∧
    parseTimestamp ['b', 'a', 'd'] = 0 := by
  refine ⟨?_, by decide, by decide, by decide⟩
  intro l h
  simp only [parseTimestamp]
  rw [if_pos h]

/-- C6 (witness): a lone `:` splits into two empty components, both `NaN`,
so the result is `0`. -/
theorem parseTimestamp_failure_witness :
    parseTimestamp [':'] = 0 :=
  parseTimestamp_failure_and_examples.1 [':'] (by decide)

end SubtitleLoop
